import Mathlib

/-!
Verification of the sample-controller repository.

This file gives a shallow embedding, in Lean, of the core of the
sample-controller: the watch-stream decode loop of the wire client
(pkg/kubeapi), the debouncing rate limiter (pkg/ratelimit), and the
reconciliation loop (pkg/controller), together with theorems about the
embedded definitions.

Conventions of the embedding:
- Go maps keyed by strings become association lists `List (String × _)`
  with a lookup function mirroring map indexing; set-valued maps become
  duplicate-free `List String`.
- Go channels become explicit input schedules: the reconciliation loop is
  a function from the list of messages it selects (deployment events, Foo
  events, rate-limiter ticks) to the list of observable actions it
  performs.  Closing a channel is a distinct `closed` message.
- `int32` replica counts become `Int`; the program only ever compares
  them for equality, so no wrap-around arithmetic is involved.
- Fallible HTTP calls are an oracle `ApiCall → Bool` deciding whether
  each create or update call succeeds.
- A nil pointer (`*int32` for `spec.replicas`) becomes `Option Int`, and
  the nil dereference in `synchronize` becomes an explicit `panicked`
  outcome.
-/

namespace SampleController

/-! ## Data model (§3 of the design; pkg/controller/controller.go) -/

/-- Constant `Kind` from controller.go line 17. -/
def Kind : String := "Foo"

/-- Constant `Group` from controller.go line 16. -/
def Group : String := "samplecontroller.example.com"

/-- Constant `Version` from controller.go line 15. -/
def Version : String := "v1alpha1"

/-- Owner reference, the subset of `metav1.OwnerReference` the program
reads and writes: apiVersion, kind, name, uid, the controller flag and
the block-owner-deletion flag. -/
structure OwnerReference where
  apiVersion : String
  kind : String
  name : String
  uid : String
  controller : Bool
  blockOwnerDeletion : Bool
deriving DecidableEq

/-- Spec of the managed resource, `FooSpec` from controller.go lines 86-89. -/
structure FooSpec where
  deploymentName : String
  replicas : Int
deriving DecidableEq

/-- Managed resource `Foo` from controller.go lines 91-94: object
metadata (name, namespace, uid) plus the spec.  The namespace field is
called `ns` because its Go name is a reserved word in Lean. -/
structure Foo where
  name : String
  ns : String
  uid : String
  spec : FooSpec
deriving DecidableEq

/-- Deployment spec: the one field the core reads, `Replicas *int32`,
modelled as `Option Int` (`none` is the nil pointer).  Template details
are outside the spec scope and never inspected by the embedded code. -/
structure DeploymentSpec where
  replicas : Option Int
deriving DecidableEq

/-- Deployment, the subset of `appsv1.Deployment` the program reads and
writes: name, namespace, resource version, owner references and the
spec.  The namespace field is called `ns` as in `Foo`. -/
structure Deployment where
  name : String
  ns : String
  resourceVersion : String
  ownerReferences : List OwnerReference
  spec : DeploymentSpec
deriving DecidableEq

/-- Go map lookup `m[k]` on an association list. -/
def lookupKey (k : String) : List (String × α) → Option α
  | [] => none
  | (k', v) :: rest => if k' == k then some v else lookupKey k rest

/-- Go map store `m[k] = v` on an association list: replaces any earlier
binding of the key. -/
def upsertKey (k : String) (v : α) (l : List (String × α)) : List (String × α) :=
  (k, v) :: l.filter (fun p => !(p.1 == k))

/-- Go map delete `delete(m, k)` on an association list. -/
def removeKey (k : String) (l : List (String × α)) : List (String × α) :=
  l.filter (fun p => !(p.1 == k))

/-- Insertion into a set of names (`m[k] = struct{}{}` on a set-valued
map), keeping the list duplicate-free. -/
def insertName (k : String) (l : List String) : List String :=
  if l.contains k then l else k :: l

/-- Controller state `controllerStatus` from controller.go lines
117-126: desired `foos` keyed by name, `deployments` observed keyed by
deployment name, and the `todo` set of Foo names awaiting
reconciliation. -/
structure ControllerStatus where
  foos : List (String × Foo)
  deployments : List (String × Deployment)
  todo : List String
deriving DecidableEq

/-! ## Building the desired deployment (controller.go lines 128-160) -/

/-- Modelled from the spec: `metav1.NewControllerRef` is library code of
k8s.io/apimachinery, not part of this repository.  Per the spec (§8) and
the repository test `TestFoo`, it produces an owner reference carrying
the managed resource group/version and kind, the owner name and uid,
with the controller and block-owner-deletion flags set. -/
def newControllerRef (foo : Foo) : OwnerReference :=
  { apiVersion := Group ++ "/" ++ Version
    kind := Kind
    name := foo.name
    uid := foo.uid
    controller := true
    blockOwnerDeletion := true }

/-- Function `newDeployment` from controller.go lines 128-160: the
desired deployment body for a Foo — named by the spec target name, in
the Foo namespace, owned by the Foo via a controller reference, with the
desired replica count.  The pod template and labels are out of the spec
scope and not represented. -/
def newDeployment (foo : Foo) : Deployment :=
  { name := foo.spec.deploymentName
    ns := foo.ns
    resourceVersion := ""
    ownerReferences := [newControllerRef foo]
    spec := { replicas := some foo.spec.replicas } }

/-- Modelled from the spec: `metav1.IsControlledBy` is library code of
k8s.io/apimachinery, not part of this repository.  Per the spec (§4.3
step 3), the observed deployment establishes the Foo as its controlling
owner when some owner reference matches exactly on kind, name and unique
id and has the controlling flag set. -/
def isControlledBy (dep : Deployment) (foo : Foo) : Bool :=
  dep.ownerReferences.any fun o =>
    o.controller && o.kind == Kind && o.name == foo.name && o.uid == foo.uid

/-! ## The synchronization pass (controller.go lines 162-206)

`synchronize` iterates over the `todo` set.  The body of the loop is
factored into `syncItem` (the Go source carries a FIXME asking for
exactly this split), and the loop control flow — `continue`, early
`return` on a failed call, and the crash on a nil `spec.replicas` — into
`syncGo`. -/

/-- The create and update calls `synchronize` can issue through the wire
client (`client.AddDeployment` / `client.UpdateDeployment`). -/
inductive ApiCall where
  | create (d : Deployment)
  | update (d : Deployment)
deriving DecidableEq

/-- Outcome of processing one `todo` item inside `synchronize`:
- `dropNoFoo`: no desired entry, drop the name (lines 165-171);
- `keepNotOwned`: observed deployment exists but is not controlled by the
  Foo; warn and keep the name (lines 175-180);
- `crashNilReplicas`: the dereference `*dep.Spec.Replicas` on a nil
  pointer (line 181);
- `dropConverged`: the owned deployment already has the desired replica
  count, drop the name (lines 181-184);
- `call c ok`: an update (for an owned observed deployment, carrying its
  resource version) or a create was issued and succeeded or failed
  (lines 187-198). -/
inductive ItemOutcome where
  | dropNoFoo
  | keepNotOwned (depNs : String) (depName : String)
  | crashNilReplicas
  | dropConverged
  | call (c : ApiCall) (ok : Bool)
deriving DecidableEq

/-- One iteration of the `synchronize` loop body for a given name, from
controller.go lines 163-198.  `env` decides whether a create or update
call succeeds. -/
def syncItem (env : ApiCall → Bool) (foos : List (String × Foo))
    (deps : List (String × Deployment)) (item : String) : ItemOutcome :=
  match lookupKey item foos with
  | none => ItemOutcome.dropNoFoo
  | some foo =>
    match lookupKey foo.spec.deploymentName deps with
    | some dep =>
      if !(isControlledBy dep foo) then
        ItemOutcome.keepNotOwned dep.ns dep.name
      else
        match dep.spec.replicas with
        | none => ItemOutcome.crashNilReplicas
        | some n =>
          if foo.spec.replicas == n then
            ItemOutcome.dropConverged
          else
            let c := ApiCall.update
              { newDeployment foo with resourceVersion := dep.resourceVersion }
            ItemOutcome.call c (env c)
    | none =>
      let c := ApiCall.create (newDeployment foo)
      ItemOutcome.call c (env c)

/-- Chronological log entries of a synchronization pass: the warning
printed for a not-owned deployment (with its namespace and name, line
176), and each issued call tagged with the `todo` item it was issued
for and whether it succeeded. -/
inductive SyncEvent where
  | warnEv (item : String) (depNs : String) (depName : String)
  | callEv (item : String) (c : ApiCall) (ok : Bool)
deriving DecidableEq

/-- How a synchronization pass ended: normally, with an early `return
err` after a failed call, or with the nil-pointer panic. -/
inductive SyncOutcome where
  | ok
  | failed
  | panicked
deriving DecidableEq

/-- Result of a synchronization pass: the names still in `todo`
afterwards, the chronological log, and how the pass ended. -/
structure SyncOut where
  todo : List String
  log : List SyncEvent
  outcome : SyncOutcome
deriving DecidableEq

/-- The `synchronize` loop (controller.go lines 163-204) over the
pending `todo` names: `continue` after a drop or a kept name, early
`return err` after a failed call (names not yet reached stay in `todo`),
and a crash on the nil dereference (nothing further runs). -/
def syncGo (env : ApiCall → Bool) (foos : List (String × Foo))
    (deps : List (String × Deployment)) : List String → SyncOut
  | [] => { todo := [], log := [], outcome := SyncOutcome.ok }
  | item :: rest =>
    match syncItem env foos deps item with
    | ItemOutcome.dropNoFoo => syncGo env foos deps rest
    | ItemOutcome.keepNotOwned dns dn =>
      let r := syncGo env foos deps rest
      { todo := item :: r.todo, log := SyncEvent.warnEv item dns dn :: r.log
        outcome := r.outcome }
    | ItemOutcome.crashNilReplicas =>
      { todo := item :: rest, log := [], outcome := SyncOutcome.panicked }
    | ItemOutcome.dropConverged => syncGo env foos deps rest
    | ItemOutcome.call c true =>
      let r := syncGo env foos deps rest
      { todo := r.todo, log := SyncEvent.callEv item c true :: r.log
        outcome := r.outcome }
    | ItemOutcome.call c false =>
      { todo := item :: rest, log := [SyncEvent.callEv item c false]
        outcome := SyncOutcome.failed }

/-- Function `synchronize` from controller.go lines 162-206, as a pass
over a `controllerStatus`.  Only `todo` is mutated by a pass; `foos` and
`deployments` are read-only during it. -/
def synchronize (env : ApiCall → Bool) (st : ControllerStatus) : SyncOut :=
  syncGo env st.foos st.deployments st.todo

/-! ## The wire client decode loop (pkg/kubeapi, `produceResources`)

The byte stream of a watch response is abstracted to the sequence of
results the JSON decoder produces from it: either a malformed envelope
(carrying the decoder error text), or an envelope with a `type` tag and
an `object` payload that either unmarshals to a value of the item type
(`Sum.inr`) or fails (`Sum.inl`, carrying the unmarshal error text).  The model follows the
execution in which no cancellation is requested, so `send` always
delivers; `close(out)` at every return is modelled by the output list
ending. -/

/-- One result of `decoder.Decode` on the watch body. -/
inductive DecodeStep (α : Type) where
  | malformed (e : String)
  | envelope (ty : String) (obj : Sum String α)
deriving DecidableEq

/-- Events the watch stream delivers to the consumer, the model of
`kubeapi.WatchEvent`: a decoded item with its delete flag, or a terminal
error. -/
inductive WatchEvt (α : Type) where
  | item (isDelete : Bool) (x : α)
  | errEv (msg : String)
deriving DecidableEq

/-- Function `parseEventType` from kubeapi: ADDED and MODIFIED collapse
to an upsert (`some false`), DELETED is a delete (`some true`), anything
else is a protocol error (`none`). -/
def parseEventType (ty : String) : Option Bool :=
  if ty == "ADDED" || ty == "MODIFIED" then some false
  else if ty == "DELETED" then some true
  else none

/-- The decode loop of `produceResources` (kubeapi): read envelopes one
at a time; on a decoder failure, an invalid event type, or an unmarshal
failure, send a single terminal error event and return; otherwise send
the decoded event and continue. -/
def decodeLoop (path : String) : List (DecodeStep α) → List (WatchEvt α)
  | [] => []
  | DecodeStep.malformed e :: _ =>
    [WatchEvt.errEv ("Could not decode WatchEvent(" ++ path ++ "): " ++ e)]
  | DecodeStep.envelope ty obj :: rest =>
    match parseEventType ty with
    | none => [WatchEvt.errEv ("Invalid EventType: " ++ ty)]
    | some isDelete =>
      match obj with
      | Sum.inl e =>
        [WatchEvt.errEv ("Unmarshaling of resource failed: " ++ e)]
      | Sum.inr x => WatchEvt.item isDelete x :: decodeLoop path rest

/-- Function `produceResources` from kubeapi: if the initial GET fails,
a single error event reports it; otherwise the decode loop runs on the
response body. -/
def produceResources (getErr : Option String) (path : String)
    (input : List (DecodeStep α)) : List (WatchEvt α) :=
  match getErr with
  | some e => [WatchEvt.errEv ("Watch failed: " ++ e)]
  | none => decodeLoop path input

/-- A decode step that makes the loop fail: a malformed envelope, an
unrecognized type tag, or an unmarshal failure. -/
def isFailStep : DecodeStep α → Bool
  | DecodeStep.malformed _ => true
  | DecodeStep.envelope ty obj =>
    (parseEventType ty).isNone || (match obj with
      | Sum.inl _ => true
      | Sum.inr _ => false)

/-- The terminal error message the decode loop emits for a failing
step. -/
def stepFailMsg (path : String) : DecodeStep α → String
  | DecodeStep.malformed e =>
    "Could not decode WatchEvent(" ++ path ++ "): " ++ e
  | DecodeStep.envelope ty obj =>
    match parseEventType ty with
    | none => "Invalid EventType: " ++ ty
    | some _ =>
      match obj with
      | Sum.inl e => "Unmarshaling of resource failed: " ++ e
      | Sum.inr _ => ""

/-- The event emitted for a non-failing decode step. -/
def stepItem : DecodeStep α → Option (WatchEvt α)
  | DecodeStep.malformed _ => none
  | DecodeStep.envelope ty obj =>
    match parseEventType ty with
    | none => none
    | some isDelete =>
      match obj with
      | Sum.inl _ => none
      | Sum.inr x => some (WatchEvt.item isDelete x)

/-- Whether a watch event is an error event. -/
def isErrEv : WatchEvt α → Bool
  | WatchEvt.errEv _ => true
  | WatchEvt.item _ _ => false

/-! ## The rate limiter (pkg/ratelimit/ratelimit.go)

The background goroutine of `AfterOneSecondIdle` is modelled as a state
machine over its four channel interactions; the unbuffered channels mean
`Stop()` returns only once `stopRecv` happened and `AskTick()` returns
only once `askRecv` happened. -/

/-- Channel interactions of the rate limiter goroutine: receiving on
`stop` (after which the goroutine returns), receiving on `ask` (which
rearms the timer), the timer firing (which enables sending a tick), and
delivering a tick on the `tick` channel. -/
inductive GEvent where
  | stopRecv
  | askRecv
  | timerFire
  | tickSend
deriving DecidableEq

/-- State of the rate limiter goroutine: whether it is still running,
whether the timer is armed, and whether a fired tick is waiting to be
delivered (the non-nil `tick` channel variable in the Go select). -/
structure RLState where
  alive : Bool
  timerArmed : Bool
  tickReady : Bool
deriving DecidableEq

/-- Initial state of `AfterOneSecondIdle`: goroutine running, timer
created stopped, no tick pending. -/
def rlInit : RLState := { alive := true, timerArmed := false, tickReady := false }

/-- One select iteration of the goroutine of `AfterOneSecondIdle`
(ratelimit.go lines 45-69): `none` when the interaction is impossible in
the given state.  A dead goroutine interacts with nothing; a tick can be
delivered only when pending; the timer fires only when armed.  Receiving
an ask rearms the timer and keeps a pending tick pending (lines
53-60). -/
def rlStep (s : RLState) : GEvent → Option RLState
  | GEvent.stopRecv => if s.alive then some { s with alive := false } else none
  | GEvent.askRecv => if s.alive then some { s with timerArmed := true } else none
  | GEvent.timerFire =>
    if s.alive && s.timerArmed then
      some { s with timerArmed := false, tickReady := true }
    else none
  | GEvent.tickSend =>
    if s.alive && s.tickReady then some { s with tickReady := false } else none

/-- Run of the goroutine over a sequence of interactions; `none` when
some interaction in the sequence is impossible. -/
def rlRun (s : RLState) : List GEvent → Option RLState
  | [] => some s
  | e :: rest =>
    match rlStep s e with
    | none => none
    | some s' => rlRun s' rest

/-! ## CRD registration (controller.go `addCRD`, lines 19-53)

The wire interactions of `addCRD` are abstracted to their results: the
outcome of the registration POST, and the sequence of events on the
dedicated establishment watch. -/

/-- Errors the wire client can return: a `kubeapi.RequestError` carrying
the non-2xx status code and body, or any other (transport, marshal)
error carrying its text. -/
inductive KubeError where
  | requestError (statusCode : Nat) (body : String)
  | otherError (msg : String)
deriving DecidableEq

/-- Error text, mirroring `RequestError.Error` in kubeapi and the text
of a wrapped plain error. -/
def kubeErrMsg : KubeError → String
  | KubeError.requestError c b =>
    "http request failed: code=" ++ toString c ++ " body=\"" ++ b ++ "\""
  | KubeError.otherError m => m

/-- One event on the establishment watch opened by `addCRD`: an error
event, or a CRD snapshot with its delete flag and status conditions
(condition type, condition status being True). -/
inductive CrdEvent where
  | errWE (e : KubeError)
  | itemWE (isDelete : Bool) (conds : List (String × Bool))
deriving DecidableEq

/-- The wait loop of `addCRD` (controller.go lines 36-51): return the
first error event; skip deletes; stop successfully at the first snapshot
with an Established=True condition; a closed stream without one also
returns success. -/
def waitEstablished : List CrdEvent → Option KubeError
  | [] => none
  | CrdEvent.errWE e :: _ => some e
  | CrdEvent.itemWE true _ :: rest => waitEstablished rest
  | CrdEvent.itemWE false conds :: rest =>
    if conds.any (fun c => c.1 == "Established" && c.2) then none
    else waitEstablished rest

/-- Function `addCRD` from controller.go lines 19-53: issue the
registration POST, return its error only when it is a `RequestError`
with a status other than 409 (the type assertion swallows every other
kind of error), then wait on the establishment watch. -/
def addCRD (regResp : Option KubeError) (events : List CrdEvent) : Option KubeError :=
  match regResp with
  | some (KubeError.requestError c b) =>
    if c != 409 then some (KubeError.requestError c b)
    else waitEstablished events
  | _ => waitEstablished events

/-! ## The reconciliation loop (controller.go `processResources`,
lines 208-287)

The loop is a function from the sequence of messages its select
statement consumes to the sequence of observable actions it performs.
Each message is a deployment-stream event, a Foo-stream event, the
closing of one of those streams, or a tick from the rate limiter. -/

/-- Message from the deployments watch channel: a decoded event, a
terminal error event (`Err` field non-nil), or the channel closing. -/
inductive DepMsg where
  | ev (isDelete : Bool) (d : Deployment)
  | fail (e : String)
  | closed
deriving DecidableEq

/-- Message from the Foos watch channel. -/
inductive FooMsg where
  | ev (isDelete : Bool) (f : Foo)
  | fail (e : String)
  | closed
deriving DecidableEq

/-- One message consumed by the select statement of the loop. -/
inductive LoopInput where
  | dep (m : DepMsg)
  | foo (m : FooMsg)
  | tick
deriving DecidableEq

/-- Observable actions of the controller: an error sent on `c.Errors`,
the closing of `c.Errors`, a call to `rl.AskTick()`, a create or update
call to the API server, the not-owned warning and the retry log line
from a failed pass, the crash of the loop goroutine on the nil
dereference, and the closing of the two watch stop channels (performed
only by `RequestStop`, never by the loop itself). -/
inductive Action where
  | reportError (msg : String)
  | closeErrors
  | askTick
  | apiCreate (d : Deployment)
  | apiUpdate (d : Deployment)
  | warnNotOwned (depNs : String) (depName : String)
  | logSyncFail
  | crashed
  | cancelFoos
  | cancelDeps
deriving DecidableEq

/-- Loop-local state: the `controllerStatus` maps plus which of the two
input channels are still open (a closed channel is set to nil in the Go
select and no longer consumed). -/
structure LoopState where
  foos : List (String × Foo)
  deployments : List (String × Deployment)
  todo : List String
  depsOpen : Bool
  foosOpen : Bool
deriving DecidableEq

/-- The state the loop starts from: empty maps, both channels open
(controller.go lines 214-217). -/
def initState : LoopState :=
  { foos := [], deployments := [], todo := [], depsOpen := true, foosOpen := true }

/-- Function `addTODO` from controller.go lines 219-231: scan the owner
references of a deployment and, at the FIRST one whose kind is the
managed-resource kind, ask for a tick, add that owner name to `todo`,
and return — remaining owner references are not examined. -/
def addTODO (d : Deployment) (todo : List String) : List String × List Action :=
  match d.ownerReferences.find? (fun o => o.kind == Kind) with
  | some o => (insertName o.name todo, [Action.askTick])
  | none => (todo, [])

/-- The first owner name `addTODO` would mark dirty, if any. -/
def firstFooOwner (d : Deployment) : Option String :=
  (d.ownerReferences.find? (fun o => o.kind == Kind)).map (fun o => o.name)

/-- Actions a synchronization log entry turns into. -/
def logAction : SyncEvent → Action
  | SyncEvent.warnEv _ dns dn => Action.warnNotOwned dns dn
  | SyncEvent.callEv _ (ApiCall.create d) _ => Action.apiCreate d
  | SyncEvent.callEv _ (ApiCall.update d) _ => Action.apiUpdate d

/-- Result of one select iteration: the loop either returns (emitting
its last actions) or continues in a new state. -/
inductive StepRes where
  | halt (as : List Action)
  | cont (s : LoopState) (as : List Action)
deriving DecidableEq

/-- One iteration of the select loop of `processResources`
(controller.go lines 233-286):
- a deployment error event: report it prefixed with the stream name and
  return (the deferred `close(c.Errors)` runs) — lines 236-239;
- the deployments channel closing: stop consuming it; if the Foos
  channel is closed too, return — lines 240-243 and 282-285;
- a deployment event: look up the previous snapshot, store or delete the
  new one, then `addTODO` for the new snapshot and, when a previous one
  existed, for it as well — lines 244-255;
- symmetrically for the Foos channel — lines 257-273: an event asks for
  a tick, stores or deletes the Foo, and marks its name dirty;
- a tick: run a synchronization pass; on failure log and ask for another
  tick; on the nil dereference the goroutine crashes — lines 275-279. -/
def loopStep (env : ApiCall → Bool) (s : LoopState) : LoopInput → StepRes
  | LoopInput.dep (DepMsg.fail e) =>
    StepRes.halt [Action.reportError ("Reading deployments: " ++ e), Action.closeErrors]
  | LoopInput.dep DepMsg.closed =>
    if s.foosOpen then StepRes.cont { s with depsOpen := false } []
    else StepRes.halt [Action.closeErrors]
  | LoopInput.dep (DepMsg.ev isDelete d) =>
    let old := lookupKey d.name s.deployments
    let deps' := if isDelete then removeKey d.name s.deployments
                 else upsertKey d.name d s.deployments
    let r1 := addTODO d s.todo
    let r2 := match old with
              | some od => addTODO od r1.1
              | none => (r1.1, [])
    StepRes.cont { s with deployments := deps', todo := r2.1 } (r1.2 ++ r2.2)
  | LoopInput.foo (FooMsg.fail e) =>
    StepRes.halt [Action.reportError ("Reading Foos: " ++ e), Action.closeErrors]
  | LoopInput.foo FooMsg.closed =>
    if s.depsOpen then StepRes.cont { s with foosOpen := false } []
    else StepRes.halt [Action.closeErrors]
  | LoopInput.foo (FooMsg.ev isDelete f) =>
    let foos' := if isDelete then removeKey f.name s.foos
                 else upsertKey f.name f s.foos
    StepRes.cont { s with foos := foos', todo := insertName f.name s.todo }
      [Action.askTick]
  | LoopInput.tick =>
    let r := synchronize env { foos := s.foos, deployments := s.deployments, todo := s.todo }
    match r.outcome with
    | SyncOutcome.panicked => StepRes.halt (r.log.map logAction ++ [Action.crashed])
    | SyncOutcome.failed =>
      StepRes.cont { s with todo := r.todo }
        (r.log.map logAction ++ [Action.logSyncFail, Action.askTick])
    | SyncOutcome.ok =>
      StepRes.cont { s with todo := r.todo } (r.log.map logAction)

/-- Run of `processResources` over a message schedule: the concatenated
actions of each iteration, stopping at the first halting iteration (any
further scheduled messages are never consumed).  An exhausted schedule
means the loop is still blocked in its select. -/
def runLoop (env : ApiCall → Bool) : List LoopInput → LoopState → List Action
  | [], _ => []
  | i :: rest, s =>
    match loopStep env s i with
    | StepRes.halt as => as
    | StepRes.cont s' as => as ++ runLoop env rest s'

/-- Run of a schedule on which the loop never halts: returns the final
state and the actions, or `none` when some iteration halts. -/
def runAlive (env : ApiCall → Bool) : List LoopInput → LoopState → Option (LoopState × List Action)
  | [], s => some (s, [])
  | i :: rest, s =>
    match loopStep env s i with
    | StepRes.halt _ => none
    | StepRes.cont s' as =>
      match runAlive env rest s' with
      | none => none
      | some (s'', as') => some (s'', as ++ as')

/-- The todo set of a step result ( `[]` when the loop halted). -/
def stepTodo : StepRes → List String
  | StepRes.halt _ => []
  | StepRes.cont s _ => s.todo

/-- Whether an action is an error report on `c.Errors`. -/
def isReport : Action → Bool
  | Action.reportError _ => true
  | _ => false

/-! ## The controller shell (controller.go lines 96-115 and 305-324) -/

/-- The externally visible controller record: whether the two watch stop
channels have been set (they are nil until `startAux` opens the
watches). -/
structure Controller where
  stopFoosSet : Bool
  stopDepsSet : Bool
deriving DecidableEq

/-- Method `RequestStop` from controller.go lines 108-115: close each
stop channel that has been set, cancelling the corresponding watch. -/
def RequestStop (c : Controller) : List Action :=
  (if c.stopFoosSet then [Action.cancelFoos] else []) ++
  (if c.stopDepsSet then [Action.cancelDeps] else [])

/-- A step of the composite system: either the loop consumes a message,
or the external caller invokes `RequestStop`. -/
inductive SysInput where
  | loopIn (i : LoopInput)
  | stopReq
deriving DecidableEq

/-- Run of the composite system after startup (both stop channels set):
`RequestStop` closes both stop channels; loop messages drive
`processResources` as in `runLoop`. -/
def runSys (env : ApiCall → Bool) : List SysInput → LoopState → List Action
  | [], _ => []
  | SysInput.stopReq :: rest, s =>
    RequestStop { stopFoosSet := true, stopDepsSet := true } ++ runSys env rest s
  | SysInput.loopIn i :: rest, s =>
    match loopStep env s i with
    | StepRes.halt as => as
    | StepRes.cont s' as => as ++ runSys env rest s'

/-- Result of `startAux`: the actions on the error output, and whether
the Foo watch and the deployments watch were opened. -/
structure StartOut where
  trace : List Action
  foosWatchOpened : Bool
  depsWatchOpened : Bool
deriving DecidableEq

/-- Method `startAux` from controller.go lines 305-320: run the CRD
registration (`addFooCRD` applies `addCRD` to the static schema payload,
which is out of the spec scope); on error, send it wrapped with
"Could not add CRD: " and close `c.Errors` without opening any watch;
otherwise open both watches and run `processResources`. -/
def startAux (regResp : Option KubeError) (crdEvents : List CrdEvent)
    (env : ApiCall → Bool) (sched : List LoopInput) : StartOut :=
  match addCRD regResp crdEvents with
  | some e =>
    { trace := [Action.reportError ("Could not add CRD: " ++ kubeErrMsg e), Action.closeErrors]
      foosWatchOpened := false
      depsWatchOpened := false }
  | none =>
    { trace := runLoop env sched initState
      foosWatchOpened := true
      depsWatchOpened := true }

/-! ## Concrete values used by counterexamples and witnesses -/

/-- An environment in which every create and update call succeeds. -/
def envAllOk : ApiCall → Bool := fun _ => true

/-- A sample managed resource, mirroring the one in the repository test
`TestFoo`. -/
def foo0 : Foo :=
  { name := "abc", ns := "xyz", uid := "2a198646"
    spec := { deploymentName := "bar", replicas := 1 } }

/-! ## C7: the rate limiter after stop -/

/-- A dead goroutine performs no further interaction: any nonempty
continuation from a state with `alive = false` is impossible. -/
theorem rl_dead_run : ∀ (tr : List GEvent) (s : RLState), s.alive = false →
    (rlRun s tr).isSome = true → tr = [] := by
  intro tr
  cases tr with
  | nil => intro s _ _; rfl
  | cons e rest =>
    intro s hdead hrun
    exfalso
    cases e <;> simp [rlRun, rlStep, hdead] at hrun

/-- Helper for C7: in any possible run, nothing follows the receipt of
the stop signal. -/
theorem rl_stop_is_last : ∀ (tr : List GEvent) (s : RLState) (tr' : List GEvent),
    (rlRun s (tr ++ GEvent.stopRecv :: tr')).isSome = true → tr' = [] := by
  intro tr
  induction tr with
  | nil =>
    intro s tr' hrun
    by_cases halive : s.alive
    · simp only [List.nil_append, rlRun, rlStep, halive, if_true] at hrun
      exact rl_dead_run tr' { s with alive := false } rfl hrun
    · simp only [Bool.not_eq_true] at halive
      simp [rlRun, rlStep, halive] at hrun
  | cons e rest ih =>
    intro s tr' hrun
    simp only [List.cons_append, rlRun] at hrun
    cases hstep : rlStep s e with
    | none => rw [hstep] at hrun; simp at hrun
    | some s' => rw [hstep] at hrun; exact ih s' tr' hrun

/-- C7: the claim fails on the code.  Once the background goroutine of
`AfterOneSecondIdle` has received the stop signal it returns, so no
possible continuation of the run ever receives on the `ask` channel; an
`AskTick()` issued after `Stop()` therefore blocks forever on the
unbuffered channel — it deadlocks. -/
theorem c7_counterexample :
    ¬ ∃ tr : List GEvent,
      (rlRun rlInit (GEvent.stopRecv :: tr)).isSome = true ∧ GEvent.askRecv ∈ tr := by
  rintro ⟨tr, hrun, hmem⟩
  have h0 : (rlRun rlInit ([] ++ GEvent.stopRecv :: tr)).isSome = true := by
    simpa using hrun
  have : tr = [] := rl_stop_is_last [] rlInit tr h0
  subst this
  simp at hmem

/-- C7 amended: after `stop()` has been consumed by the background
goroutine of the debouncer, the goroutine performs no further channel
interaction at all; a subsequent `requestTick()` blocks forever rather
than returning. -/
theorem c7_theorem : ∀ (tr tr' : List GEvent),
    (rlRun rlInit (tr ++ GEvent.stopRecv :: tr')).isSome = true → tr' = [] := by
  intro tr tr' hrun
  exact rl_stop_is_last tr rlInit tr' hrun

/-- Witness for C7 at a concrete run: stopping the freshly created rate
limiter is a possible run, and the theorem applies to it. -/
theorem c7_witness :
    (rlRun rlInit ([] ++ GEvent.stopRecv :: [])).isSome = true ∧ ([] : List GEvent) = [] :=
  ⟨by decide, c7_theorem [] [] (by decide)⟩

/-! ## C8: registration conflict treated as success -/

/-- C8: a conflict response (HTTP 409) from the registration call is
treated exactly like a successful registration — `addCRD` proceeds to
the establishment wait with no registration error, so a controller
started against a server that already has the resource type registered
reports no error. -/
theorem c8_theorem : ∀ (b : String) (events : List CrdEvent),
    addCRD (some (KubeError.requestError 409 b)) events = addCRD none events := by
  intro b events
  simp [addCRD]

/-! ## C2: the decode loop stops at the first failure -/

/-- The event of a good step is never an error event. -/
theorem stepItem_not_err : ∀ (st : DecodeStep α) (ev : WatchEvt α),
    stepItem st = some ev → isErrEv ev = false := by
  intro st ev h
  cases st with
  | malformed e => simp [stepItem] at h
  | envelope ty obj =>
    simp only [stepItem] at h
    cases hty : parseEventType ty with
    | none => rw [hty] at h; simp at h
    | some isDelete =>
      rw [hty] at h
      cases obj with
      | inl e => simp at h
      | inr x => simp at h; rw [← h]; rfl

/-- Helper for C2: the decode loop on well-formed envelopes followed by a
failing one emits the decoded events and then the single error, whatever
comes after the failing envelope. -/
theorem decodeLoop_fail {α : Type} (path : String) (bad : DecodeStep α)
    (hbad : isFailStep bad = true) :
    ∀ (suf : List (DecodeStep α)) (l : List (DecodeStep α)),
    (∀ st ∈ l, isFailStep st = false) →
    decodeLoop path (l ++ bad :: suf) =
      l.filterMap stepItem ++ [WatchEvt.errEv (stepFailMsg path bad)] := by
  intro suf l
  induction l with
  | nil =>
    intro _
    simp only [List.nil_append, List.filterMap_nil]
    cases bad with
    | malformed e => simp [decodeLoop, stepFailMsg]
    | envelope ty obj =>
      simp only [isFailStep] at hbad
      cases hty : parseEventType ty with
      | none => simp [decodeLoop, stepFailMsg, hty]
      | some isDelete =>
        rw [hty] at hbad
        cases obj with
        | inl e => simp [decodeLoop, stepFailMsg, hty]
        | inr x => simp at hbad
  | cons st rest ih =>
    intro hgood
    have hst : isFailStep st = false := hgood st (List.mem_cons_self st rest)
    have hrest : ∀ s ∈ rest, isFailStep s = false :=
      fun s hs => hgood s (List.mem_cons_of_mem st hs)
    cases st with
    | malformed e => simp [isFailStep] at hst
    | envelope ty obj =>
      simp only [isFailStep, Bool.or_eq_false_iff] at hst
      obtain ⟨hty0, hobj0⟩ := hst
      cases hty : parseEventType ty with
      | none => rw [hty] at hty0; simp at hty0
      | some isDelete =>
        cases obj with
        | inl e => simp at hobj0
        | inr x =>
          simp only [List.cons_append, decodeLoop, hty]
          rw [show rest.append (bad :: suf) = rest ++ bad :: suf from rfl, ih hrest]
          simp [stepItem, hty]

/-- C2: for every watch stream and every input, when the decoder hits a
malformed envelope, an unrecognized event type, or an unmarshal failure,
the stream emits the events of the preceding well-formed envelopes
followed by exactly one terminal error event; the output does not depend
on anything after the failing envelope — no further envelopes are read —
and the returned (hence closed) stream contains exactly one error
event. -/
theorem c2_theorem : ∀ {α : Type} (path : String) (pre : List (DecodeStep α))
    (bad : DecodeStep α) (suf : List (DecodeStep α)),
    (∀ st ∈ pre, isFailStep st = false) → isFailStep bad = true →
    produceResources none path (pre ++ bad :: suf) =
      pre.filterMap stepItem ++ [WatchEvt.errEv (stepFailMsg path bad)]
    ∧ (produceResources none path (pre ++ bad :: suf)).countP (fun e => isErrEv e) = 1
    ∧ produceResources none path (pre ++ bad :: suf) =
      produceResources none path (pre ++ [bad]) := by
  intro α path pre bad suf hpre hbad
  have heq := decodeLoop_fail path bad hbad suf pre hpre
  have heq2 := decodeLoop_fail path bad hbad [] pre hpre
  refine ⟨by simpa [produceResources] using heq, ?_, ?_⟩
  · simp only [produceResources]
    rw [heq, List.countP_append]
    have hzero : (pre.filterMap stepItem).countP (fun e => isErrEv e) = 0 := by
      rw [List.countP_eq_zero]
      intro ev hev
      obtain ⟨st, hst, hsome⟩ := List.mem_filterMap.mp hev
      simp [stepItem_not_err st ev hsome]
    rw [hzero]
    rfl
  · simp [produceResources, heq, heq2]

/-- Witness for C2: the broken-stream scenario of the repository test
`TestBrokenFoo` — one good envelope, then undecodable bytes, then more
input that is never read. -/
theorem c2_witness :
    ((∀ st ∈ [DecodeStep.envelope "ADDED" (Sum.inr foo0)], isFailStep st = false)
      ∧ isFailStep (DecodeStep.malformed "invalid character" : DecodeStep Foo) = true)
    ∧ produceResources none "foos"
        ([DecodeStep.envelope "ADDED" (Sum.inr foo0)] ++
          DecodeStep.malformed "invalid character" ::
            [DecodeStep.envelope "ADDED" (Sum.inr foo0)]) =
      [WatchEvt.item false foo0,
        WatchEvt.errEv "Could not decode WatchEvent(foos): invalid character"] := by
  refine ⟨⟨by decide, by decide⟩, ?_⟩
  have h := c2_theorem "foos" [DecodeStep.envelope "ADDED" (Sum.inr foo0)]
    (DecodeStep.malformed "invalid character")
    [DecodeStep.envelope "ADDED" (Sum.inr foo0)] (by decide) (by decide)
  rw [h.1]
  rfl

/-! ## C6: errors during the Starting phase -/

/-- C6: a transport-level failure of the registration POST is an error
occurring during the Starting phase, yet the type assertion in `addCRD`
swallows it: with an establishment watch that reports Established, the
controller reports nothing on its error output and proceeds to open both
watches, contradicting the claim that every Starting-phase error is
reported and prevents `Running`. -/
theorem c6_counterexample :
    startAux (some (KubeError.otherError "connection reset"))
        [CrdEvent.itemWE false [("Established", true)]] envAllOk [] =
      { trace := [], foosWatchOpened := true, depsWatchOpened := true } := by
  decide

/-- C6 amended: every error RETURNED by the registration-and-establishment
step — a non-409 `RequestError` from the registration call, or an error
event on the establishment watch — is reported exactly once, wrapped
with "Could not add CRD: ", the error output is closed, and neither
watch is opened; but an error of any other kind from the registration
call is swallowed by the type assertion and startup proceeds. -/
theorem c6_theorem :
    (∀ (regResp : Option KubeError) (crdEvents : List CrdEvent)
        (env : ApiCall → Bool) (sched : List LoopInput) (e : KubeError),
      addCRD regResp crdEvents = some e →
      startAux regResp crdEvents env sched =
        { trace := [Action.reportError ("Could not add CRD: " ++ kubeErrMsg e),
            Action.closeErrors]
          foosWatchOpened := false
          depsWatchOpened := false })
    ∧ (∀ (m : String) (crdEvents : List CrdEvent),
        addCRD (some (KubeError.otherError m)) crdEvents = addCRD none crdEvents) := by
  constructor
  · intro regResp crdEvents env sched e h
    simp [startAux, h]
  · intro m crdEvents
    simp [addCRD]

/-- Witness for C6 at the 404 scenario of the repository test
`TestCreationError`: the registration call fails with status 404 and the
controller stops with the expected single wrapped error, opening no
watch. -/
theorem c6_witness :
    addCRD (some (KubeError.requestError 404 "dummy")) [] =
        some (KubeError.requestError 404 "dummy")
    ∧ startAux (some (KubeError.requestError 404 "dummy")) [] envAllOk [] =
      { trace := [Action.reportError
          "Could not add CRD: http request failed: code=404 body=\"dummy\"",
          Action.closeErrors]
        foosWatchOpened := false
        depsWatchOpened := false } := by
  refine ⟨by decide, ?_⟩
  have h := c6_theorem.1 (some (KubeError.requestError 404 "dummy")) [] envAllOk []
    (KubeError.requestError 404 "dummy") (by decide)
  rw [h]
  rfl

/-! ## C5: create and update calls around RequestStop -/

/-- The system schedule of the C5 counterexample: a Foo upsert, then the
external `RequestStop`, then a pending tick, then the two streams
closing. -/
def sched5 : List SysInput :=
  [SysInput.loopIn (LoopInput.foo (FooMsg.ev false foo0)),
   SysInput.stopReq,
   SysInput.loopIn LoopInput.tick,
   SysInput.loopIn (LoopInput.foo FooMsg.closed),
   SysInput.loopIn (LoopInput.dep DepMsg.closed)]

/-- C5: the claim fails on the code.  A tick delivered after
`RequestStop` but before the streams close still runs a synchronization
pass: in this run the create call for the dirty Foo happens AFTER both
stop channels were closed, so create/update calls are not over once
`RequestStop` returns. -/
theorem c5_counterexample :
    runSys envAllOk sched5 initState =
      [Action.askTick, Action.cancelFoos, Action.cancelDeps,
        Action.apiCreate (newDeployment foo0), Action.closeErrors] := by
  decide

/-- C5 amended: once both watch streams have reported closed the loop
terminates at that very step, emitting only the closing of its error
output — no create or update call (indeed no action at all) follows,
whatever else is scheduled; between `RequestStop` and the closure of the
streams, buffered events and pending ticks may still trigger create or
update calls. -/
theorem c5_theorem : ∀ (env : ApiCall → Bool) (s : LoopState) (suf : List LoopInput),
    (s.foosOpen = false →
      runLoop env (LoopInput.dep DepMsg.closed :: suf) s = [Action.closeErrors])
    ∧ (s.depsOpen = false →
      runLoop env (LoopInput.foo FooMsg.closed :: suf) s = [Action.closeErrors]) := by
  intro env s suf
  constructor
  · intro h
    simp [runLoop, loopStep, h]
  · intro h
    simp [runLoop, loopStep, h]

/-- Witness for C5: with the Foo stream already closed, the deployment
stream closing ends the loop with the error output closed, even though a
tick is still scheduled. -/
theorem c5_witness :
    ({ initState with foosOpen := false } : LoopState).foosOpen = false
    ∧ runLoop envAllOk (LoopInput.dep DepMsg.closed :: [LoopInput.tick])
        { initState with foosOpen := false } = [Action.closeErrors] :=
  ⟨rfl, (c5_theorem envAllOk { initState with foosOpen := false } [LoopInput.tick]).1 rfl⟩

/-! ## C1: fatal stream errors -/

/-- Actions that only a terminating iteration (or `RequestStop`) can
produce: error reports, the closing of the error output, the goroutine
crash, and the closing of the stop channels. -/
def isTerminalAct : Action → Bool
  | Action.reportError _ => true
  | Action.closeErrors => true
  | Action.crashed => true
  | Action.cancelFoos => true
  | Action.cancelDeps => true
  | _ => false

/-- Synchronization log entries never map to terminal actions. -/
theorem logAction_not_terminal : ∀ (e : SyncEvent), isTerminalAct (logAction e) = false := by
  intro e
  cases e with
  | warnEv i dns dn => rfl
  | callEv i c ok => cases c <;> rfl

/-- Every action `addTODO` performs is a tick request. -/
theorem addTODO_acts : ∀ (d : Deployment) (todo : List String),
    ∀ a ∈ (addTODO d todo).2, a = Action.askTick := by
  intro d todo a ha
  cases h : d.ownerReferences.find? (fun o => o.kind == Kind) with
  | none => rw [addTODO, h] at ha; cases ha
  | some o => rw [addTODO, h] at ha; simp at ha; exact ha

/-- A non-terminating iteration of the loop performs no terminal
action. -/
theorem cont_not_terminal : ∀ (env : ApiCall → Bool) (s : LoopState) (i : LoopInput)
    (s' : LoopState) (as : List Action),
    loopStep env s i = StepRes.cont s' as → ∀ a ∈ as, isTerminalAct a = false := by
  intro env s i s' as h a ha
  cases i with
  | dep m =>
    cases m with
    | fail e => simp [loopStep] at h
    | closed =>
      by_cases hf : s.foosOpen <;> simp [loopStep, hf] at h
      · rw [h.2] at ha; cases ha
    | ev isDelete d =>
      simp only [loopStep] at h
      injection h with h1 h2
      rw [← h2] at ha
      rcases List.mem_append.mp ha with hmem | hmem
      · rw [addTODO_acts d s.todo a hmem]; rfl
      · cases hold : lookupKey d.name s.deployments with
        | none => rw [hold] at hmem; dsimp only at hmem; cases hmem
        | some od =>
          rw [hold] at hmem; dsimp only at hmem
          rw [addTODO_acts od (addTODO d s.todo).1 a hmem]; rfl
  | foo m =>
    cases m with
    | fail e => simp [loopStep] at h
    | closed =>
      by_cases hd : s.depsOpen <;> simp [loopStep, hd] at h
      · rw [h.2] at ha; cases ha
    | ev isDelete f =>
      simp only [loopStep] at h
      injection h with h1 h2
      rw [← h2] at ha
      simp at ha
      rw [ha]; rfl
  | tick =>
    simp only [loopStep] at h
    cases hout : (synchronize env
        { foos := s.foos, deployments := s.deployments, todo := s.todo }).outcome
    case panicked => rw [hout] at h; simp at h
    case failed =>
      rw [hout] at h
      injection h with h1 h2
      rw [← h2] at ha
      rcases List.mem_append.mp ha with hmem | hmem
      · obtain ⟨e, _, he⟩ := List.mem_map.mp hmem
        rw [← he]; exact logAction_not_terminal e
      · simp only [List.mem_cons, List.mem_singleton] at hmem
        rcases hmem with rfl | rfl | hmem
        · rfl
        · rfl
        · cases hmem
    case ok =>
      rw [hout] at h
      injection h with h1 h2
      rw [← h2] at ha
      obtain ⟨e, _, he⟩ := List.mem_map.mp ha
      rw [← he]; exact logAction_not_terminal e

/-- Composition of an alive prefix with the rest of a schedule. -/
theorem runAlive_append : ∀ (env : ApiCall → Bool) (pre : List LoopInput)
    (s s' : LoopState) (as : List Action),
    runAlive env pre s = some (s', as) →
    ∀ l, runLoop env (pre ++ l) s = as ++ runLoop env l s' := by
  intro env pre
  induction pre with
  | nil =>
    intro s s' as h l
    simp only [runAlive] at h
    injection h with h
    injection h with h1 h2
    rw [← h1, ← h2]
    simp
  | cons i rest ih =>
    intro s s' as h l
    simp only [runAlive] at h
    cases hstep : loopStep env s i with
    | halt as0 => rw [hstep] at h; dsimp only at h; cases h
    | cont s1 as1 =>
      rw [hstep] at h; dsimp only at h
      cases hrec : runAlive env rest s1 with
      | none => rw [hrec] at h; dsimp only at h; cases h
      | some p =>
        obtain ⟨s2, as2⟩ := p
        rw [hrec] at h; dsimp only at h
        injection h with h
        injection h with h1 h2
        have hih := ih s1 s2 as2 hrec l
        simp only [List.cons_append, runLoop, hstep]
        rw [show rest.append l = rest ++ l from rfl, hih, h1, ← h2]
        simp

/-- An alive prefix performs no terminal action. -/
theorem runAlive_not_terminal : ∀ (env : ApiCall → Bool) (pre : List LoopInput)
    (s s' : LoopState) (as : List Action),
    runAlive env pre s = some (s', as) → ∀ a ∈ as, isTerminalAct a = false := by
  intro env pre
  induction pre with
  | nil =>
    intro s s' as h a ha
    simp only [runAlive] at h
    injection h with h
    injection h with h1 h2
    rw [← h2] at ha; cases ha
  | cons i rest ih =>
    intro s s' as h a ha
    simp only [runAlive] at h
    cases hstep : loopStep env s i with
    | halt as0 => rw [hstep] at h; dsimp only at h; cases h
    | cont s1 as1 =>
      rw [hstep] at h; dsimp only at h
      cases hrec : runAlive env rest s1 with
      | none => rw [hrec] at h; dsimp only at h; cases h
      | some p =>
        obtain ⟨s2, as2⟩ := p
        rw [hrec] at h; dsimp only at h
        injection h with h
        injection h with h1 h2
        rw [← h2] at ha
        rcases List.mem_append.mp ha with hmem | hmem
        · exact cont_not_terminal env s i s1 as1 hstep a hmem
        · exact ih s1 s2 as2 hrec a hmem

/-- The failing input of one of the two streams. -/
def failIn (isDep : Bool) (e : String) : LoopInput :=
  if isDep then LoopInput.dep (DepMsg.fail e) else LoopInput.foo (FooMsg.fail e)

/-- The prefix prepended to the error text for each stream. -/
def streamLabel (isDep : Bool) : String :=
  if isDep then "Reading deployments: " else "Reading Foos: "

/-- Error reports are terminal actions. -/
theorem isReport_terminal : ∀ (a : Action), isReport a = true → isTerminalAct a = true := by
  intro a h
  cases a <;> first | rfl | exact absurd h (by simp [isReport])

/-- C1 amended: when a fatal error arrives on either watch stream after
any non-terminating prefix, the loop reports exactly one terminal error,
prefixed with the name of the failing stream, and closes its error
output at that very step; it does NOT cancel either watch stream (no
stop channel is closed by the loop — cancellation is the external
`RequestStop`), and it does not drain the streams: nothing scheduled
after the failing event is consumed. -/
theorem c1_theorem : ∀ (env : ApiCall → Bool) (s : LoopState) (pre : List LoopInput)
    (isDep : Bool) (e : String) (suf : List LoopInput) (s' : LoopState) (as : List Action),
    runAlive env pre s = some (s', as) →
    runLoop env (pre ++ failIn isDep e :: suf) s =
      as ++ [Action.reportError (streamLabel isDep ++ e), Action.closeErrors]
    ∧ (as ++ [Action.reportError (streamLabel isDep ++ e), Action.closeErrors]).countP
        (fun a => isReport a) = 1
    ∧ (∀ a ∈ as ++ [Action.reportError (streamLabel isDep ++ e), Action.closeErrors],
        a ≠ Action.cancelFoos ∧ a ≠ Action.cancelDeps) := by
  intro env s pre isDep e suf s' as h
  have hterm := runAlive_not_terminal env pre s s' as h
  refine ⟨?_, ?_, ?_⟩
  · rw [runAlive_append env pre s s' as h]
    cases isDep <;> simp [failIn, streamLabel, runLoop, loopStep]
  · rw [List.countP_append]
    have hzero : as.countP (fun a => isReport a) = 0 := by
      rw [List.countP_eq_zero]
      intro a ha
      intro hrep
      have := isReport_terminal a (by simpa using hrep)
      rw [hterm a ha] at this
      cases this
    rw [hzero]
    simp [List.countP_cons, isReport]
  · intro a ha
    rcases List.mem_append.mp ha with hmem | hmem
    · have hnt := hterm a hmem
      constructor <;> rintro rfl <;> simp [isTerminalAct] at hnt
    · simp only [List.mem_cons, List.mem_singleton] at hmem
      rcases hmem with rfl | rfl | hmem
      · exact ⟨by simp, by simp⟩
      · exact ⟨by simp, by simp⟩
      · cases hmem

/-- The schedule of the C1 counterexample: a fatal deployments-stream
error, with a Foo upsert still buffered behind it. -/
def sched1 : List LoopInput :=
  [LoopInput.dep (DepMsg.fail "decode failed"), LoopInput.foo (FooMsg.ev false foo0)]

/-- C1: the claim fails on the code.  On the fatal deployments-stream
error the loop reports once and terminates immediately: its trace closes
no stop channel (the loop never cancels the watches — only the external
`RequestStop` does), and the Foo event scheduled behind the error is
never consumed (its tick request is absent), so the loop does not
drain. -/
theorem c1_counterexample :
    runLoop envAllOk sched1 initState =
      [Action.reportError "Reading deployments: decode failed", Action.closeErrors]
    ∧ Action.cancelFoos ∉ runLoop envAllOk sched1 initState
    ∧ Action.cancelDeps ∉ runLoop envAllOk sched1 initState
    ∧ Action.askTick ∉ runLoop envAllOk sched1 initState := by
  decide

/-- Witness for C1: one Foo upsert, then a fatal Foo-stream error. -/
theorem c1_witness :
    runLoop envAllOk
        ([LoopInput.foo (FooMsg.ev false foo0)] ++ failIn false "boom" :: []) initState =
      [Action.askTick] ++
        [Action.reportError (streamLabel false ++ "boom"), Action.closeErrors] :=
  (c1_theorem envAllOk initState [LoopInput.foo (FooMsg.ev false foo0)] false "boom" []
    { foos := [("abc", foo0)], deployments := [], todo := ["abc"],
      depsOpen := true, foosOpen := true } [Action.askTick] (by decide)).1

/-! ## C3: marking owners dirty on deployment events -/

/-- The actions of a step result. -/
def stepActs : StepRes → List Action
  | StepRes.halt as => as
  | StepRes.cont _ as => as

/-- Membership in the set after an insertion. -/
theorem mem_insertName : ∀ (k n : String) (l : List String),
    k ∈ insertName n l ↔ k = n ∨ k ∈ l := by
  intro k n l
  by_cases h : l.contains n
  · have hn : n ∈ l := by simpa using h
    simp only [insertName, if_pos h]
    constructor
    · exact fun hk => Or.inr hk
    · rintro (rfl | hk)
      · exact hn
      · exact hk
  · simp only [insertName, if_neg h, List.mem_cons]

/-- When some owner reference has the managed-resource kind, `addTODO`
inserts the first such owner name and asks for a tick. -/
theorem addTODO_some : ∀ (d : Deployment) (n : String), firstFooOwner d = some n →
    ∀ todo, addTODO d todo = (insertName n todo, [Action.askTick]) := by
  intro d n h todo
  unfold firstFooOwner at h
  cases hf : d.ownerReferences.find? (fun o => o.kind == Kind) with
  | none => rw [hf] at h; simp at h
  | some o =>
    rw [hf] at h
    simp only [Option.map_some'] at h
    injection h with h
    simp [addTODO, hf, h]

/-- When no owner reference has the managed-resource kind, `addTODO`
does nothing. -/
theorem addTODO_none : ∀ (d : Deployment), firstFooOwner d = none →
    ∀ todo, addTODO d todo = (todo, []) := by
  intro d h todo
  unfold firstFooOwner at h
  cases hf : d.ownerReferences.find? (fun o => o.kind == Kind) with
  | none => simp [addTODO, hf]
  | some o => rw [hf] at h; simp at h

/-- Shape of the deployment-event iteration: the resulting todo set and
actions in terms of `addTODO` on the new and the previous snapshot. -/
theorem loopStep_dep_ev : ∀ (env : ApiCall → Bool) (s : LoopState) (isDelete : Bool)
    (d : Deployment),
    stepTodo (loopStep env s (LoopInput.dep (DepMsg.ev isDelete d))) =
      (match lookupKey d.name s.deployments with
        | some od => (addTODO od (addTODO d s.todo).1).1
        | none => (addTODO d s.todo).1)
    ∧ stepActs (loopStep env s (LoopInput.dep (DepMsg.ev isDelete d))) =
      (addTODO d s.todo).2 ++
        (match lookupKey d.name s.deployments with
          | some od => (addTODO od (addTODO d s.todo).1).2
          | none => []) := by
  intro env s isDelete d
  cases hold : lookupKey d.name s.deployments <;>
    simp [loopStep, stepTodo, stepActs, hold]

/-- C3 amended: on every deployment event (upsert or delete), the FIRST
owner reference of the new snapshot whose kind equals the
managed-resource kind has its owner name added to the dirty set with a
tick requested; the same is done for the previous snapshot when the
deployment was already observed; and nothing else is ever added — in
particular, owner names carried only by a second or later matching owner
reference of a snapshot are not marked. -/
theorem c3_theorem : ∀ (env : ApiCall → Bool) (s : LoopState) (isDelete : Bool)
    (d : Deployment),
    (∀ n, firstFooOwner d = some n →
      n ∈ stepTodo (loopStep env s (LoopInput.dep (DepMsg.ev isDelete d)))
      ∧ Action.askTick ∈ stepActs (loopStep env s (LoopInput.dep (DepMsg.ev isDelete d))))
    ∧ (∀ od n, lookupKey d.name s.deployments = some od → firstFooOwner od = some n →
      n ∈ stepTodo (loopStep env s (LoopInput.dep (DepMsg.ev isDelete d))))
    ∧ (∀ n, n ∈ stepTodo (loopStep env s (LoopInput.dep (DepMsg.ev isDelete d))) →
      n ∈ s.todo ∨ firstFooOwner d = some n ∨
      ∃ od, lookupKey d.name s.deployments = some od ∧ firstFooOwner od = some n) := by
  intro env s isDelete d
  obtain ⟨htodo, hacts⟩ := loopStep_dep_ev env s isDelete d
  cases hold : lookupKey d.name s.deployments with
  | none =>
    rw [hold] at htodo hacts
    dsimp only at htodo hacts
    cases hfd : firstFooOwner d with
    | none =>
      rw [addTODO_none d hfd s.todo] at htodo hacts
      refine ⟨?_, ?_, ?_⟩
      · intro n hn; simp at hn
      · intro od n hod; simp at hod
      · intro n hn; rw [htodo] at hn; exact Or.inl hn
    | some n0 =>
      rw [addTODO_some d n0 hfd s.todo] at htodo hacts
      refine ⟨?_, ?_, ?_⟩
      · intro n hn
        injection hn with hn
        subst hn
        rw [htodo, hacts]
        exact ⟨(mem_insertName n0 n0 s.todo).mpr (Or.inl rfl), by simp⟩
      · intro od n hod; simp at hod
      · intro n hn
        rw [htodo] at hn
        rcases (mem_insertName n n0 s.todo).mp hn with rfl | hmem
        · exact Or.inr (Or.inl rfl)
        · exact Or.inl hmem
  | some od0 =>
    rw [hold] at htodo hacts
    dsimp only at htodo hacts
    cases hfd : firstFooOwner d with
    | none =>
      rw [addTODO_none d hfd s.todo] at htodo hacts
      cases hfo : firstFooOwner od0 with
      | none =>
        rw [addTODO_none od0 hfo s.todo] at htodo hacts
        refine ⟨?_, ?_, ?_⟩
        · intro n hn; simp at hn
        · intro od n hod hfo'
          injection hod with hod
          subst hod
          rw [hfo] at hfo'; simp at hfo'
        · intro n hn; rw [htodo] at hn; exact Or.inl hn
      | some m0 =>
        rw [addTODO_some od0 m0 hfo s.todo] at htodo hacts
        refine ⟨?_, ?_, ?_⟩
        · intro n hn; simp at hn
        · intro od n hod hfo'
          injection hod with hod
          subst hod
          rw [hfo] at hfo'
          injection hfo' with hfo'
          subst hfo'
          rw [htodo]
          exact (mem_insertName m0 m0 s.todo).mpr (Or.inl rfl)
        · intro n hn
          rw [htodo] at hn
          rcases (mem_insertName n m0 s.todo).mp hn with rfl | hmem
          · exact Or.inr (Or.inr ⟨od0, rfl, hfo⟩)
          · exact Or.inl hmem
    | some n0 =>
      rw [addTODO_some d n0 hfd s.todo] at htodo hacts
      cases hfo : firstFooOwner od0 with
      | none =>
        rw [addTODO_none od0 hfo (insertName n0 s.todo)] at htodo hacts
        refine ⟨?_, ?_, ?_⟩
        · intro n hn
          injection hn with hn
          subst hn
          rw [htodo, hacts]
          exact ⟨(mem_insertName n0 n0 s.todo).mpr (Or.inl rfl), by simp⟩
        · intro od n hod hfo'
          injection hod with hod
          subst hod
          rw [hfo] at hfo'; simp at hfo'
        · intro n hn
          rw [htodo] at hn
          rcases (mem_insertName n n0 s.todo).mp hn with rfl | hmem
          · exact Or.inr (Or.inl rfl)
          · exact Or.inl hmem
      | some m0 =>
        rw [addTODO_some od0 m0 hfo (insertName n0 s.todo)] at htodo hacts
        refine ⟨?_, ?_, ?_⟩
        · intro n hn
          injection hn with hn
          subst hn
          rw [htodo, hacts]
          refine ⟨(mem_insertName n0 m0 (insertName n0 s.todo)).mpr
            (Or.inr ((mem_insertName n0 n0 s.todo).mpr (Or.inl rfl))), by simp⟩
        · intro od n hod hfo'
          injection hod with hod
          subst hod
          rw [hfo] at hfo'
          injection hfo' with hfo'
          subst hfo'
          rw [htodo]
          exact (mem_insertName m0 m0 (insertName n0 s.todo)).mpr (Or.inl rfl)
        · intro n hn
          rw [htodo] at hn
          rcases (mem_insertName n m0 (insertName n0 s.todo)).mp hn with rfl | hmem
          · exact Or.inr (Or.inr ⟨od0, rfl, hfo⟩)
          · rcases (mem_insertName n n0 s.todo).mp hmem with rfl | hmem2
            · exact Or.inr (Or.inl rfl)
            · exact Or.inl hmem2

/-- An owner reference of the managed-resource kind pointing at the Foo
named a. -/
def ownerRefA : OwnerReference :=
  { apiVersion := "samplecontroller.example.com/v1alpha1", kind := "Foo"
    name := "a", uid := "u-a", controller := true, blockOwnerDeletion := true }

/-- A second owner reference of the managed-resource kind, pointing at
the Foo named b. -/
def ownerRefB : OwnerReference :=
  { apiVersion := "samplecontroller.example.com/v1alpha1", kind := "Foo"
    name := "b", uid := "u-b", controller := false, blockOwnerDeletion := false }

/-- A deployment carrying TWO owner references whose kind is the
managed-resource kind. -/
def twoOwnerDep : Deployment :=
  { name := "bar", ns := "xyz", resourceVersion := "1"
    ownerReferences := [ownerRefA, ownerRefB]
    spec := { replicas := some 1 } }

/-- C3: the claim fails on the code.  For a deployment event whose
snapshot carries two owner references of the managed-resource kind,
`addTODO` returns after the first match: the first owner name is marked
dirty but the second one is not, although the claim requires every
matching owner reference to be marked. -/
theorem c3_counterexample :
    "a" ∈ stepTodo (loopStep envAllOk initState (LoopInput.dep (DepMsg.ev false twoOwnerDep)))
    ∧ "b" ∉ stepTodo (loopStep envAllOk initState
        (LoopInput.dep (DepMsg.ev false twoOwnerDep))) := by
  decide

/-- Witness for C3 at the two-owner deployment: the first matching owner
is marked dirty. -/
theorem c3_witness :
    firstFooOwner twoOwnerDep = some "a"
    ∧ "a" ∈ stepTodo (loopStep envAllOk initState
        (LoopInput.dep (DepMsg.ev false twoOwnerDep))) :=
  ⟨by decide, ((c3_theorem envAllOk initState false twoOwnerDep).1 "a" (by decide)).1⟩

/-! ## Inversion lemmas for one synchronization item -/

/-- An item is dropped as having no desired entry only when the desired
map really has none. -/
theorem syncItem_dropNoFoo_inv : ∀ (env : ApiCall → Bool) (foos : List (String × Foo))
    (deps : List (String × Deployment)) (item : String),
    syncItem env foos deps item = ItemOutcome.dropNoFoo → lookupKey item foos = none := by
  intro env foos deps item h
  cases hf : lookupKey item foos with
  | none => rfl
  | some foo =>
    exfalso
    unfold syncItem at h
    simp only [hf] at h
    cases hd : lookupKey foo.spec.deploymentName deps with
    | none => simp only [hd] at h; simp at h
    | some dep =>
      simp only [hd] at h
      cases hown : isControlledBy dep foo with
      | false => simp [hown] at h
      | true =>
        simp only [hown] at h
        cases hr : dep.spec.replicas with
        | none => simp [hr] at h
        | some n =>
          simp only [hr] at h
          cases hb : foo.spec.replicas == n <;> simp [hb] at h

/-- An item is dropped as converged only when the desired entry exists,
the observed deployment named by its target exists, is controlled by it,
and already carries the desired replica count. -/
theorem syncItem_dropConverged_inv : ∀ (env : ApiCall → Bool) (foos : List (String × Foo))
    (deps : List (String × Deployment)) (item : String),
    syncItem env foos deps item = ItemOutcome.dropConverged →
    ∃ foo dep, lookupKey item foos = some foo
      ∧ lookupKey foo.spec.deploymentName deps = some dep
      ∧ isControlledBy dep foo = true
      ∧ dep.spec.replicas = some foo.spec.replicas := by
  intro env foos deps item h
  cases hf : lookupKey item foos with
  | none => exfalso; unfold syncItem at h; simp only [hf] at h; simp at h
  | some foo =>
    unfold syncItem at h
    simp only [hf] at h
    cases hd : lookupKey foo.spec.deploymentName deps with
    | none => exfalso; simp only [hd] at h; simp at h
    | some dep =>
      simp only [hd] at h
      cases hown : isControlledBy dep foo with
      | false => exfalso; simp [hown] at h
      | true =>
        simp only [hown] at h
        cases hr : dep.spec.replicas with
        | none => exfalso; simp [hr] at h
        | some n =>
          simp only [hr] at h
          cases hb : foo.spec.replicas == n with
          | false => exfalso; simp [hb] at h
          | true =>
            have hn : foo.spec.replicas = n := eq_of_beq hb
            exact ⟨foo, dep, rfl, hd, hown, by rw [hr, hn]⟩

/-- The nil-pointer crash happens only when the desired entry exists and
its owned observed deployment has a nil replica pointer. -/
theorem syncItem_crash_inv : ∀ (env : ApiCall → Bool) (foos : List (String × Foo))
    (deps : List (String × Deployment)) (item : String),
    syncItem env foos deps item = ItemOutcome.crashNilReplicas →
    ∃ foo dep, lookupKey item foos = some foo
      ∧ lookupKey foo.spec.deploymentName deps = some dep
      ∧ isControlledBy dep foo = true
      ∧ dep.spec.replicas = none := by
  intro env foos deps item h
  cases hf : lookupKey item foos with
  | none => exfalso; unfold syncItem at h; simp only [hf] at h; simp at h
  | some foo =>
    unfold syncItem at h
    simp only [hf] at h
    cases hd : lookupKey foo.spec.deploymentName deps with
    | none => exfalso; simp only [hd] at h; simp at h
    | some dep =>
      simp only [hd] at h
      cases hown : isControlledBy dep foo with
      | false => exfalso; simp [hown] at h
      | true =>
        simp only [hown] at h
        cases hr : dep.spec.replicas with
        | none => exact ⟨foo, dep, rfl, hd, hown, hr⟩
        | some n =>
          exfalso
          simp only [hr] at h
          cases hb : foo.spec.replicas == n <;> simp [hb] at h

/-- When the desired entry exists and its target deployment is observed
but not controlled by it, the item outcome is the not-owned warning. -/
theorem syncItem_keepNotOwned_of : ∀ (env : ApiCall → Bool) (foos : List (String × Foo))
    (deps : List (String × Deployment)) (item : String) (foo : Foo) (dep : Deployment),
    lookupKey item foos = some foo →
    lookupKey foo.spec.deploymentName deps = some dep →
    isControlledBy dep foo = false →
    syncItem env foos deps item = ItemOutcome.keepNotOwned dep.ns dep.name := by
  intro env foos deps item foo dep hf hd hown
  unfold syncItem
  simp [hf, hd, hown]

/-! ## Structure lemmas for the synchronization pass -/

/-- Names kept in `todo` by a pass all come from the pending list. -/
theorem syncGo_todo_mem : ∀ (env : ApiCall → Bool) (foos : List (String × Foo))
    (deps : List (String × Deployment)) (pending : List String),
    ∀ n, n ∈ (syncGo env foos deps pending).todo → n ∈ pending := by
  intro env foos deps pending
  induction pending with
  | nil => intro n hn; simp [syncGo] at hn
  | cons item rest ih =>
    intro n hn
    cases hsi : syncItem env foos deps item
    case dropNoFoo =>
      simp only [syncGo, hsi] at hn
      exact List.mem_cons_of_mem _ (ih n hn)
    case keepNotOwned dns dn =>
      simp only [syncGo, hsi] at hn
      rcases List.mem_cons.mp hn with rfl | hmem
      · exact List.mem_cons_self _ _
      · exact List.mem_cons_of_mem _ (ih n hmem)
    case crashNilReplicas =>
      simp only [syncGo, hsi] at hn
      exact hn
    case dropConverged =>
      simp only [syncGo, hsi] at hn
      exact List.mem_cons_of_mem _ (ih n hn)
    case call c ok =>
      cases ok
      case false =>
        simp only [syncGo, hsi] at hn
        exact hn
      case true =>
        simp only [syncGo, hsi] at hn
        exact List.mem_cons_of_mem _ (ih n hn)

/-- Calls logged by a pass are issued for pending names. -/
theorem syncGo_log_mem : ∀ (env : ApiCall → Bool) (foos : List (String × Foo))
    (deps : List (String × Deployment)) (pending : List String),
    ∀ n c ok, SyncEvent.callEv n c ok ∈ (syncGo env foos deps pending).log → n ∈ pending := by
  intro env foos deps pending
  induction pending with
  | nil => intro n c ok h; simp [syncGo] at h
  | cons item rest ih =>
    intro n c ok h
    cases hsi : syncItem env foos deps item
    case dropNoFoo =>
      simp only [syncGo, hsi] at h
      exact List.mem_cons_of_mem _ (ih n c ok h)
    case keepNotOwned dns dn =>
      simp only [syncGo, hsi] at h
      rcases List.mem_cons.mp h with h | h
      · simp at h
      · exact List.mem_cons_of_mem _ (ih n c ok h)
    case crashNilReplicas =>
      simp only [syncGo, hsi] at h
      simp at h
    case dropConverged =>
      simp only [syncGo, hsi] at h
      exact List.mem_cons_of_mem _ (ih n c ok h)
    case call c0 ok0 =>
      cases ok0
      case false =>
        simp only [syncGo, hsi] at h
        rcases List.mem_cons.mp h with h | h
        · injection h with h1 h2 h3
          subst h1
          exact List.mem_cons_self _ _
        · simp at h
      case true =>
        simp only [syncGo, hsi] at h
        rcases List.mem_cons.mp h with h | h
        · injection h with h1 h2 h3
          subst h1
          exact List.mem_cons_self _ _
        · exact List.mem_cons_of_mem _ (ih n c ok h)

/-- A pass panics only when some pending name owns an observed
deployment with a nil replica pointer. -/
theorem syncGo_panic_inv : ∀ (env : ApiCall → Bool) (foos : List (String × Foo))
    (deps : List (String × Deployment)) (pending : List String),
    (syncGo env foos deps pending).outcome = SyncOutcome.panicked →
    ∃ item foo dep, item ∈ pending ∧ lookupKey item foos = some foo
      ∧ lookupKey foo.spec.deploymentName deps = some dep
      ∧ isControlledBy dep foo = true
      ∧ dep.spec.replicas = none := by
  intro env foos deps pending
  induction pending with
  | nil => intro h; simp [syncGo] at h
  | cons item rest ih =>
    intro h
    cases hsi : syncItem env foos deps item
    case dropNoFoo =>
      simp only [syncGo, hsi] at h
      obtain ⟨i, foo, dep, hmem, rest'⟩ := ih h
      exact ⟨i, foo, dep, List.mem_cons_of_mem _ hmem, rest'⟩
    case keepNotOwned dns dn =>
      simp only [syncGo, hsi] at h
      obtain ⟨i, foo, dep, hmem, rest'⟩ := ih h
      exact ⟨i, foo, dep, List.mem_cons_of_mem _ hmem, rest'⟩
    case crashNilReplicas =>
      obtain ⟨foo, dep, hf, hd, hown, hnil⟩ := syncItem_crash_inv env foos deps item hsi
      exact ⟨item, foo, dep, List.mem_cons_self _ _, hf, hd, hown, hnil⟩
    case dropConverged =>
      simp only [syncGo, hsi] at h
      obtain ⟨i, foo, dep, hmem, rest'⟩ := ih h
      exact ⟨i, foo, dep, List.mem_cons_of_mem _ hmem, rest'⟩
    case call c ok =>
      cases ok
      case false => simp only [syncGo, hsi] at h; simp at h
      case true =>
        simp only [syncGo, hsi] at h
        obtain ⟨i, foo, dep, hmem, rest'⟩ := ih h
        exact ⟨i, foo, dep, List.mem_cons_of_mem _ hmem, rest'⟩

/-- A successful lookup points at an entry of the map. -/
theorem lookupKey_mem : ∀ (k : String) (l : List (String × α)) (v : α),
    lookupKey k l = some v → (k, v) ∈ l := by
  intro k l
  induction l with
  | nil => intro v h; simp [lookupKey] at h
  | cons p rest ih =>
    intro v h
    obtain ⟨k', v'⟩ := p
    simp only [lookupKey] at h
    cases hbeq : k' == k with
    | true =>
      simp [hbeq] at h
      have hk : k' = k := eq_of_beq hbeq
      subst hk
      rw [← h]
      exact List.mem_cons_self _ _
    | false =>
      simp [hbeq] at h
      exact List.mem_cons_of_mem _ (ih v h)

/-! ## C10: the nil replica-pointer dereference -/

/-- A deployment controlled by `foo0` whose JSON omitted
`spec.replicas`: the replica pointer is nil. -/
def depNil : Deployment :=
  { name := "bar", ns := "xyz", resourceVersion := "5"
    ownerReferences := [newControllerRef foo0]
    spec := { replicas := none } }

/-- A controller state observing `depNil` for the dirty Foo `abc`. -/
def crashStatus : ControllerStatus :=
  { foos := [("abc", foo0)], deployments := [("bar", depNil)], todo := ["abc"] }

/-- A controller state whose observed map has no nil replica pointer. -/
def okStatus : ControllerStatus :=
  { foos := [("abc", foo0)], deployments := [], todo := ["abc"] }

/-- C10: the comparison `foo.Spec.Replicas == *dep.Spec.Replicas` in
`synchronize` dereferences the observed replica pointer without a nil
guard.  The panic branch is unreachable exactly under the precondition
that every deployment stored in the observed map has a non-nil
`spec.replicas`; and for an observed deployment decoded from JSON that
omitted `spec.replicas` (modelled by `depNil`), the pass panics and the
loop goroutine crashes on the next tick. -/
theorem c10_theorem :
    (∀ (env : ApiCall → Bool) (st : ControllerStatus),
      (∀ p ∈ st.deployments, p.2.spec.replicas ≠ none) →
      (synchronize env st).outcome ≠ SyncOutcome.panicked)
    ∧ (synchronize envAllOk crashStatus).outcome = SyncOutcome.panicked
    ∧ loopStep envAllOk
        { foos := crashStatus.foos, deployments := crashStatus.deployments,
          todo := crashStatus.todo, depsOpen := true, foosOpen := true }
        LoopInput.tick = StepRes.halt [Action.crashed] := by
  refine ⟨?_, by decide, by decide⟩
  intro env st hpre hpan
  obtain ⟨item, foo, dep, _, _, hd, _, hnil⟩ :=
    syncGo_panic_inv env st.foos st.deployments st.todo hpan
  exact hpre (foo.spec.deploymentName, dep) (lookupKey_mem _ _ _ hd) hnil

/-- Witness for C10: a state whose observed map holds no nil replica
pointer never panics. -/
theorem c10_witness :
    (∀ p ∈ okStatus.deployments, p.2.spec.replicas ≠ none)
    ∧ (synchronize envAllOk okStatus).outcome ≠ SyncOutcome.panicked :=
  ⟨by decide, c10_theorem.1 envAllOk okStatus (by decide)⟩

/-! ## C9: the dirty-set invariant of a pass -/

/-- A name dropped from `todo` by a pass was dropped for one of the
three legitimate reasons: no desired entry, already converged, or a
successful call. -/
theorem syncGo_removed : ∀ (env : ApiCall → Bool) (foos : List (String × Foo))
    (deps : List (String × Deployment)) (pending : List String),
    ∀ n, n ∈ pending → n ∉ (syncGo env foos deps pending).todo →
      lookupKey n foos = none
      ∨ (∃ foo dep, lookupKey n foos = some foo
          ∧ lookupKey foo.spec.deploymentName deps = some dep
          ∧ isControlledBy dep foo = true
          ∧ dep.spec.replicas = some foo.spec.replicas)
      ∨ (∃ c, SyncEvent.callEv n c true ∈ (syncGo env foos deps pending).log) := by
  intro env foos deps pending
  induction pending with
  | nil => intro n hmem; cases hmem
  | cons item rest ih =>
    intro n hmem hnot
    cases hsi : syncItem env foos deps item
    case dropNoFoo =>
      simp only [syncGo, hsi] at hnot ⊢
      rcases List.mem_cons.mp hmem with rfl | hmem'
      · exact Or.inl (syncItem_dropNoFoo_inv env foos deps n hsi)
      · exact ih n hmem' hnot
    case keepNotOwned dns dn =>
      simp only [syncGo, hsi] at hnot ⊢
      rcases List.mem_cons.mp hmem with rfl | hmem'
      · exact absurd (List.mem_cons_self _ _) hnot
      · have hnot' : n ∉ (syncGo env foos deps rest).todo :=
          fun hc => hnot (List.mem_cons_of_mem _ hc)
        rcases ih n hmem' hnot' with h | h | ⟨c, hc⟩
        · exact Or.inl h
        · exact Or.inr (Or.inl h)
        · exact Or.inr (Or.inr ⟨c, List.mem_cons_of_mem _ hc⟩)
    case crashNilReplicas =>
      simp only [syncGo, hsi] at hnot
      exact absurd hmem hnot
    case dropConverged =>
      simp only [syncGo, hsi] at hnot ⊢
      rcases List.mem_cons.mp hmem with rfl | hmem'
      · exact Or.inr (Or.inl (syncItem_dropConverged_inv env foos deps n hsi))
      · exact ih n hmem' hnot
    case call c0 ok0 =>
      cases ok0
      case false =>
        simp only [syncGo, hsi] at hnot
        exact absurd hmem hnot
      case true =>
        simp only [syncGo, hsi] at hnot ⊢
        rcases List.mem_cons.mp hmem with rfl | hmem'
        · exact Or.inr (Or.inr ⟨c0, List.mem_cons_self _ _⟩)
        · rcases ih n hmem' hnot with h | h | ⟨c, hc⟩
          · exact Or.inl h
          · exact Or.inr (Or.inl h)
          · exact Or.inr (Or.inr ⟨c, List.mem_cons_of_mem _ hc⟩)

/-- A name whose call succeeded is out of `todo` at the end of the pass,
whatever happens to later names (no rollback). -/
theorem syncGo_success_removed : ∀ (env : ApiCall → Bool) (foos : List (String × Foo))
    (deps : List (String × Deployment)) (pending : List String), pending.Nodup →
    ∀ n c, SyncEvent.callEv n c true ∈ (syncGo env foos deps pending).log →
      n ∉ (syncGo env foos deps pending).todo := by
  intro env foos deps pending
  induction pending with
  | nil => intro _ n c h; simp [syncGo] at h
  | cons item rest ih =>
    intro hnd n c h
    obtain ⟨hitem, hrest⟩ := List.nodup_cons.mp hnd
    cases hsi : syncItem env foos deps item
    case dropNoFoo =>
      simp only [syncGo, hsi] at h ⊢
      exact ih hrest n c h
    case keepNotOwned dns dn =>
      simp only [syncGo, hsi] at h ⊢
      rcases List.mem_cons.mp h with hbad | hlog
      · simp at hbad
      · intro hc
        rcases List.mem_cons.mp hc with heq | hc
        · rw [heq] at hlog
          exact hitem (syncGo_log_mem env foos deps rest item c true hlog)
        · exact ih hrest n c hlog hc
    case crashNilReplicas =>
      simp only [syncGo, hsi] at h
      simp at h
    case dropConverged =>
      simp only [syncGo, hsi] at h ⊢
      exact ih hrest n c h
    case call c0 ok0 =>
      cases ok0
      case false =>
        simp only [syncGo, hsi] at h
        rcases List.mem_cons.mp h with h | h
        · injection h with h1 h2 h3
          cases h3
        · simp at h
      case true =>
        simp only [syncGo, hsi] at h ⊢
        rcases List.mem_cons.mp h with h | h
        · injection h with h1 h2 h3
          subst h1
          intro hc
          exact hitem (syncGo_todo_mem env foos deps rest n hc)
        · exact ih hrest n c h

/-- A name warned as not-owned is still in `todo` at the end of the
pass. -/
theorem syncGo_warned_kept : ∀ (env : ApiCall → Bool) (foos : List (String × Foo))
    (deps : List (String × Deployment)) (pending : List String),
    ∀ n dns dn, SyncEvent.warnEv n dns dn ∈ (syncGo env foos deps pending).log →
      n ∈ (syncGo env foos deps pending).todo := by
  intro env foos deps pending
  induction pending with
  | nil => intro n dns dn h; simp [syncGo] at h
  | cons item rest ih =>
    intro n dns dn h
    cases hsi : syncItem env foos deps item
    case dropNoFoo =>
      simp only [syncGo, hsi] at h ⊢
      exact ih n dns dn h
    case keepNotOwned dns0 dn0 =>
      simp only [syncGo, hsi] at h ⊢
      rcases List.mem_cons.mp h with h | h
      · injection h with h1 h2 h3
        subst h1
        exact List.mem_cons_self _ _
      · exact List.mem_cons_of_mem _ (ih n dns dn h)
    case crashNilReplicas =>
      simp only [syncGo, hsi] at h
      simp at h
    case dropConverged =>
      simp only [syncGo, hsi] at h ⊢
      exact ih n dns dn h
    case call c0 ok0 =>
      cases ok0
      case false =>
        simp only [syncGo, hsi] at h
        rcases List.mem_cons.mp h with h | h
        · simp at h
        · simp at h
      case true =>
        simp only [syncGo, hsi] at h ⊢
        rcases List.mem_cons.mp h with h | h
        · simp at h
        · exact ih n dns dn h

/-- A name whose call failed is still in `todo` at the end of the
pass. -/
theorem syncGo_failed_kept : ∀ (env : ApiCall → Bool) (foos : List (String × Foo))
    (deps : List (String × Deployment)) (pending : List String),
    ∀ n c, SyncEvent.callEv n c false ∈ (syncGo env foos deps pending).log →
      n ∈ (syncGo env foos deps pending).todo := by
  intro env foos deps pending
  induction pending with
  | nil => intro n c h; simp [syncGo] at h
  | cons item rest ih =>
    intro n c h
    cases hsi : syncItem env foos deps item
    case dropNoFoo =>
      simp only [syncGo, hsi] at h ⊢
      exact ih n c h
    case keepNotOwned dns0 dn0 =>
      simp only [syncGo, hsi] at h ⊢
      rcases List.mem_cons.mp h with h | h
      · simp at h
      · exact List.mem_cons_of_mem _ (ih n c h)
    case crashNilReplicas =>
      simp only [syncGo, hsi] at h
      simp at h
    case dropConverged =>
      simp only [syncGo, hsi] at h ⊢
      exact ih n c h
    case call c0 ok0 =>
      cases ok0
      case false =>
        simp only [syncGo, hsi] at h ⊢
        rcases List.mem_cons.mp h with h | h
        · injection h with h1 h2 h3
          subst h1
          exact List.mem_cons_self _ _
        · simp at h
      case true =>
        simp only [syncGo, hsi] at h ⊢
        rcases List.mem_cons.mp h with h | h
        · injection h with h1 h2 h3
          cases h3
        · exact ih n c h

/-- C9: the dirty-set invariant of the synchronization pass.  A name is
removed from the dirty set only when its desired entry is absent, its
owned observed deployment already carries the desired replica count, or
its create/update call succeeded; a name that succeeded stays removed
even when a later name fails (no rollback); and a name with an ownership
conflict or a failed call stays in the dirty set. -/
theorem c9_theorem : ∀ (env : ApiCall → Bool) (st : ControllerStatus), st.todo.Nodup →
    (∀ n, n ∈ st.todo → n ∉ (synchronize env st).todo →
      lookupKey n st.foos = none
      ∨ (∃ foo dep, lookupKey n st.foos = some foo
          ∧ lookupKey foo.spec.deploymentName st.deployments = some dep
          ∧ isControlledBy dep foo = true
          ∧ dep.spec.replicas = some foo.spec.replicas)
      ∨ (∃ c, SyncEvent.callEv n c true ∈ (synchronize env st).log))
    ∧ (∀ n c, SyncEvent.callEv n c true ∈ (synchronize env st).log →
        n ∉ (synchronize env st).todo)
    ∧ (∀ n dns dn, SyncEvent.warnEv n dns dn ∈ (synchronize env st).log →
        n ∈ (synchronize env st).todo)
    ∧ (∀ n c, SyncEvent.callEv n c false ∈ (synchronize env st).log →
        n ∈ (synchronize env st).todo) := by
  intro env st hnd
  exact ⟨syncGo_removed env st.foos st.deployments st.todo,
    syncGo_success_removed env st.foos st.deployments st.todo hnd,
    syncGo_warned_kept env st.foos st.deployments st.todo,
    syncGo_failed_kept env st.foos st.deployments st.todo⟩

/-- Desired resource whose target deployment does not exist yet. -/
def foo9a : Foo :=
  { name := "n1", ns := "xyz", uid := "u1"
    spec := { deploymentName := "d1", replicas := 1 } }

/-- Desired resource whose owned target deployment has a stale replica
count. -/
def foo9b : Foo :=
  { name := "n2", ns := "xyz", uid := "u2"
    spec := { deploymentName := "d2", replicas := 2 } }

/-- The observed deployment owned by `foo9b`, out of date. -/
def dep9 : Deployment :=
  { name := "d2", ns := "xyz", resourceVersion := "7"
    ownerReferences := [newControllerRef foo9b]
    spec := { replicas := some 5 } }

/-- An environment in which creates succeed and updates fail. -/
def env9 : ApiCall → Bool := fun c =>
  match c with
  | ApiCall.create _ => true
  | ApiCall.update _ => false

/-- A state with two dirty names: the first will be created, the second
will fail its update. -/
def st9 : ControllerStatus :=
  { foos := [("n1", foo9a), ("n2", foo9b)]
    deployments := [("d2", dep9)]
    todo := ["n1", "n2"] }

/-- Witness for C9: in a pass where the first name succeeds and the
second fails, the first stays removed and the second stays dirty. -/
theorem c9_witness :
    st9.todo.Nodup
    ∧ "n1" ∉ (synchronize env9 st9).todo
    ∧ "n2" ∈ (synchronize env9 st9).todo :=
  ⟨by decide,
   (c9_theorem env9 st9 (by decide)).2.1 "n1" (ApiCall.create (newDeployment foo9a)) (by decide),
   (c9_theorem env9 st9 (by decide)).2.2.2 "n2"
     (ApiCall.update { newDeployment foo9b with resourceVersion := "7" }) (by decide)⟩

/-! ## C4: the ownership guard -/

/-- A pass over a prefix that ended normally composes with the pass over
the remaining names. -/
theorem syncGo_append_ok : ∀ (env : ApiCall → Bool) (foos : List (String × Foo))
    (deps : List (String × Deployment)) (pre l : List String),
    (syncGo env foos deps pre).outcome = SyncOutcome.ok →
    syncGo env foos deps (pre ++ l) =
      { todo := (syncGo env foos deps pre).todo ++ (syncGo env foos deps l).todo
        log := (syncGo env foos deps pre).log ++ (syncGo env foos deps l).log
        outcome := (syncGo env foos deps l).outcome } := by
  intro env foos deps pre
  induction pre with
  | nil => intro l _; rfl
  | cons item rest ih =>
    intro l h
    cases hsi : syncItem env foos deps item
    case dropNoFoo =>
      have h' : (syncGo env foos deps rest).outcome = SyncOutcome.ok := by
        simpa [syncGo, hsi] using h
      simp only [List.cons_append, syncGo, hsi]
      rw [show rest.append l = rest ++ l from rfl, ih l h']
    case keepNotOwned dns dn =>
      have h' : (syncGo env foos deps rest).outcome = SyncOutcome.ok := by
        simpa [syncGo, hsi] using h
      simp only [List.cons_append, syncGo, hsi]
      rw [show rest.append l = rest ++ l from rfl, ih l h']
    case crashNilReplicas =>
      exfalso
      simp [syncGo, hsi] at h
    case dropConverged =>
      have h' : (syncGo env foos deps rest).outcome = SyncOutcome.ok := by
        simpa [syncGo, hsi] using h
      simp only [List.cons_append, syncGo, hsi]
      rw [show rest.append l = rest ++ l from rfl, ih l h']
    case call c0 ok0 =>
      cases ok0
      case false =>
        exfalso
        simp [syncGo, hsi] at h
      case true =>
        have h' : (syncGo env foos deps rest).outcome = SyncOutcome.ok := by
          simpa [syncGo, hsi] using h
        simp only [List.cons_append, syncGo, hsi]
        rw [show rest.append l = rest ++ l from rfl, ih l h']

/-- A name with a not-owned outcome is kept and never called, wherever
it occurs in a pass and whatever happens to the other names. -/
theorem keepNotOwned_global : ∀ (env : ApiCall → Bool) (foos : List (String × Foo))
    (deps : List (String × Deployment)) (n dns dn : String),
    syncItem env foos deps n = ItemOutcome.keepNotOwned dns dn →
    ∀ pending, (n ∈ pending → n ∈ (syncGo env foos deps pending).todo)
      ∧ (∀ c ok, SyncEvent.callEv n c ok ∉ (syncGo env foos deps pending).log) := by
  intro env foos deps n dns dn hn pending
  induction pending with
  | nil =>
    constructor
    · intro h; cases h
    · intro c ok h; simp [syncGo] at h
  | cons item rest ih =>
    by_cases heq : item = n
    · subst heq
      constructor
      · intro _
        simp only [syncGo, hn]
        exact List.mem_cons_self _ _
      · intro c ok hc
        simp only [syncGo, hn] at hc
        rcases List.mem_cons.mp hc with hbad | hc
        · simp at hbad
        · exact ih.2 c ok hc
    · constructor
      · intro hmem
        have hmem' : n ∈ rest := by
          rcases List.mem_cons.mp hmem with hn2 | hn2
          · exact absurd hn2.symm heq
          · exact hn2
        cases hsi : syncItem env foos deps item with
        | dropNoFoo =>
          simp only [syncGo, hsi]
          exact ih.1 hmem'
        | keepNotOwned d1 d2 =>
          simp only [syncGo, hsi]
          exact List.mem_cons_of_mem _ (ih.1 hmem')
        | crashNilReplicas =>
          simp only [syncGo, hsi]
          exact List.mem_cons_of_mem _ hmem'
        | dropConverged =>
          simp only [syncGo, hsi]
          exact ih.1 hmem'
        | call c0 ok0 =>
          cases ok0 with
          | false =>
            simp only [syncGo, hsi]
            exact List.mem_cons_of_mem _ hmem'
          | true =>
            simp only [syncGo, hsi]
            exact ih.1 hmem'
      · intro c ok hc
        cases hsi : syncItem env foos deps item with
        | dropNoFoo =>
          simp only [syncGo, hsi] at hc
          exact ih.2 c ok hc
        | keepNotOwned d1 d2 =>
          simp only [syncGo, hsi] at hc
          rcases List.mem_cons.mp hc with hbad | hc2
          · simp at hbad
          · exact ih.2 c ok hc2
        | crashNilReplicas =>
          simp only [syncGo, hsi] at hc
          simp at hc
        | dropConverged =>
          simp only [syncGo, hsi] at hc
          exact ih.2 c ok hc
        | call c0 ok0 =>
          cases ok0 with
          | false =>
            simp only [syncGo, hsi] at hc
            rcases List.mem_cons.mp hc with hbad | hc2
            · injection hbad with h1 h2 h3
              exact absurd h1.symm heq
            · simp at hc2
          | true =>
            simp only [syncGo, hsi] at hc
            rcases List.mem_cons.mp hc with hbad | hc2
            · injection hbad with h1 h2 h3
              exact absurd h1.symm heq
            · exact ih.2 c ok hc2

/-- C4: in a synchronization pass, a name whose desired entry exists and
whose target deployment is observed but not established as controlled by
it — reached after a prefix of the pass that did not abort — issues no
create or update call, logs the not-owned warning (with the namespace
and name of the deployment), and stays in the dirty set. -/
theorem c4_theorem : ∀ (env : ApiCall → Bool) (foos : List (String × Foo))
    (deps : List (String × Deployment)) (pre post : List String) (item : String)
    (foo : Foo) (dep : Deployment),
    lookupKey item foos = some foo →
    lookupKey foo.spec.deploymentName deps = some dep →
    isControlledBy dep foo = false →
    (syncGo env foos deps pre).outcome = SyncOutcome.ok →
    item ∈ (syncGo env foos deps (pre ++ item :: post)).todo
    ∧ SyncEvent.warnEv item dep.ns dep.name ∈ (syncGo env foos deps (pre ++ item :: post)).log
    ∧ (∀ c ok, SyncEvent.callEv item c ok ∉ (syncGo env foos deps (pre ++ item :: post)).log) := by
  intro env foos deps pre post item foo dep hf hd hown hok
  have hsi : syncItem env foos deps item = ItemOutcome.keepNotOwned dep.ns dep.name :=
    syncItem_keepNotOwned_of env foos deps item foo dep hf hd hown
  have hglob := keepNotOwned_global env foos deps item dep.ns dep.name hsi
  refine ⟨(hglob (pre ++ item :: post)).1 (by simp), ?_, (hglob (pre ++ item :: post)).2⟩
  rw [syncGo_append_ok env foos deps pre (item :: post) hok]
  have hhead : SyncEvent.warnEv item dep.ns dep.name ∈
      (syncGo env foos deps (item :: post)).log := by
    simp only [syncGo, hsi]
    exact List.mem_cons_self _ _
  exact List.mem_append.mpr (Or.inr hhead)

/-- The controlling owner reference of the C4 witness deployment: it
carries the wrong unique id, as in the repository test `TestFoo`. -/
def ownerRefWrong : OwnerReference :=
  { apiVersion := "samplecontroller.example.com/v1alpha1", kind := "Foo"
    name := "abc", uid := "wrong", controller := true, blockOwnerDeletion := true }

/-- The observed deployment of the C4 witness, carrying that owner
reference. -/
def depWrong : Deployment :=
  { name := "bar", ns := "xyz", resourceVersion := "3"
    ownerReferences := [ownerRefWrong]
    spec := { replicas := some 1 } }

/-- Witness for C4: the deployment with the wrong owner uid is warned
about and its Foo stays dirty, with no call issued. -/
theorem c4_witness :
    isControlledBy depWrong foo0 = false
    ∧ "abc" ∈ (syncGo envAllOk [("abc", foo0)] [("bar", depWrong)] ([] ++ "abc" :: [])).todo
    ∧ SyncEvent.warnEv "abc" depWrong.ns depWrong.name ∈
        (syncGo envAllOk [("abc", foo0)] [("bar", depWrong)] ([] ++ "abc" :: [])).log :=
  have h := c4_theorem envAllOk [("abc", foo0)] [("bar", depWrong)] [] [] "abc" foo0 depWrong
    (by decide) (by decide) (by decide) (by decide)
  ⟨by decide, h.1, h.2.1⟩

end SampleController
